import Mathlib

/-
Shallow embedding of the log-ingestion and statistical-aggregation pipeline of
the Spacker analysis scripts:

  * experiments/exp_scripts/analysis/overhead/pareto/pareto_curve_batching.py
    (function ReadFile, lines 44-159)
  * experiments/exp_scripts/analysis/workloads/breakdown/breakdown_batching_input_rate.py
    (function ReadFile, lines 8-59)

Modelling conventions:
  * Python strings are `List Char`; `str.split(sep)` is `pySplit`, `str.find(sub) != -1`
    is a test on the length of the split, exactly as the two are related in Python.
  * Python `int(...)` applied to a string is `pyInt?` (optional whitespace, optional
    sign, a nonempty digit run; digit-group underscores are not modelled — no input
    in the scripts uses them).
  * Python exceptions are `Except Unit`; a raised, uncaught exception is `.error ()`.
  * Python floats are modelled as exact rationals (`Rat`).  Addition and division
    are `pyAdd` / `pyDiv`, defined through `Rat.divInt` so that they compute by
    kernel reduction; they agree with Mathlib's `+` and `/` (`pyAdd_eq`, `pyDiv_eq`).
  * `int(x/1000)` on a parsed millisecond timestamp truncates toward zero, which
    is `Int.tdiv`; for the 13-character timestamps the scripts read (absolute
    value below 10^13) the float division is exact enough that truncation of the
    float equals integer truncation, and on nonnegative values it is floor division.
  * Python dicts keyed by timestamps / phase names are insertion-ordered
    association lists, as in CPython 3.7+.
-/

/-! ### Python string primitives -/

/-- One splitting step of Python `s.split(sep)` for a nonempty separator,
with explicit fuel (the fuel is structural so that the kernel can evaluate it;
`pySplit` supplies `s.length + 1`, which is never exhausted). -/
def pySplitF (sep : List Char) : Nat → List Char → List (List Char)
  | 0, _ => [[]]
  | _ + 1, [] => [[]]
  | fuel + 1, c :: rest =>
    if !sep.isEmpty && List.isPrefixOf sep (c :: rest) then
      [] :: pySplitF sep fuel ((c :: rest).drop sep.length)
    else
      match pySplitF sep fuel rest with
      | [] => [[c]]
      | chunk :: chunks => (c :: chunk) :: chunks

/-- Python `s.split(sep)` (for the nonempty literal separators the scripts use):
the list of maximal chunks between non-overlapping occurrences of `sep`. -/
def pySplit (sep s : List Char) : List (List Char) :=
  pySplitF sep (s.length + 1) s

/-- Python `str.isspace` for the whitespace that `int(...)` strips. -/
def isPySpace (c : Char) : Bool :=
  c = ' ' || c = '\t' || c = '\n' || c = '\r'

/-- Strip leading and trailing whitespace, as Python `int(...)` does. -/
def pyTrim (s : List Char) : List Char :=
  ((s.dropWhile isPySpace).reverse.dropWhile isPySpace).reverse

/-- The numeric value of a decimal digit character, if it is one. -/
def digitVal (c : Char) : Option Nat :=
  if '0' ≤ c && c ≤ '9' then some (c.toNat - '0'.toNat) else none

/-- Accumulate a decimal digit run; `none` on any non-digit. -/
def digitsToNatAux (acc : Nat) : List Char → Option Nat
  | [] => some acc
  | c :: rest =>
    match digitVal c with
    | none => none
    | some d => digitsToNatAux (10 * acc + d) rest

/-- A nonempty all-digit string as a natural number. -/
def digitsToNat : List Char → Option Nat
  | [] => none
  | s => digitsToNatAux 0 s

/-- Python `int(s)` on a string: optional surrounding whitespace, optional sign,
then a nonempty digit run; `none` models the `ValueError` raise. -/
def pyInt? (s : List Char) : Option Int :=
  match pyTrim s with
  | '-' :: rest => (digitsToNat rest).map (fun n => -(n : Int))
  | '+' :: rest => (digitsToNat rest).map (fun n => (n : Int))
  | t => (digitsToNat t).map (fun n => (n : Int))

/-! ### Exact rational versions of the Python float operations -/

/-- Python float `+` on the (exactly representable) values the scripts handle,
as exact rational addition, written so that the kernel can evaluate it. -/
def pyAdd (a b : Rat) : Rat :=
  Rat.divInt (a.num * (b.den : Int) + b.num * (a.den : Int)) ((a.den : Int) * (b.den : Int))

/-- Python `x / n` (true division by a positive integer), as exact rational
division, written so that the kernel can evaluate it. -/
def pyDiv (x : Rat) (n : Nat) : Rat :=
  Rat.divInt x.num ((x.den : Int) * (n : Int))

/-! ### LogReader: one line of a task's latency-trace file
(pareto_curve_batching.py lines 81-89) -/

/-- A parsed latency record: `ts` is the 1-second-resolution epoch
(`int(int(r.split("ts: ")[1][:13])/1000)`), `latency` the value after
`"endToEnd latency: "`. -/
structure Sample where
  ts : Int
  latency : Int
deriving DecidableEq, Repr

def latencyMarker : List Char := "endToEnd latency: ".data

def tsMarker : List Char := "ts: ".data

/-- Processing of one raw trace line (lines 82-89 of pareto_curve_batching.py):
`r.find("endToEnd latency: ") != -1` guards the whole block (equivalently, the
split on the marker has at least two chunks); inside the block each indexing or
`int(...)` step can raise, which is `.error ()`.  `.ok none` is a silently
skipped line. -/
def processLine (r : List Char) : Except Unit (Option Sample) :=
  if 1 < (pySplit latencyMarker r).length then
    match (pySplit tsMarker r)[1]? with
    | none => .error ()
    | some afterTs =>
      match pyInt? (afterTs.take 13) with
      | none => .error ()
      | some tsRaw =>
        match (pySplit latencyMarker r)[1]? with
        | none => .error ()
        | some afterLat =>
          match pyInt? afterLat with
          | none => .error ()
          | some lat => .ok (some ⟨Int.tdiv tsRaw 1000, lat⟩)
  else
    .ok none

/-! ### TimelineAligner: per-configuration accumulation over tasks
(pareto_curve_batching.py lines 66-95) -/

/-- `temp_dict[ts].append(latency)` (creating `temp_dict[ts] = []` first when the
key is new): an insertion-ordered association list from coarsened timestamp to
the latency values that landed in that second. -/
def addSample : List (Int × List Int) → Int → Int → List (Int × List Int)
  | [], ts, lat => [(ts, [lat])]
  | (t, vs) :: rest, ts, lat =>
    if t = ts then (t, vs ++ [lat]) :: rest
    else (t, vs) :: addSample rest ts lat

/-- The mutable state of the per-configuration reading loop:
`start_ts` (`none` is the initial `float('inf')`) and `temp_dict`. -/
structure ParseState where
  startTs : Option Int
  dict : List (Int × List Int)
deriving DecidableEq, Repr

/-- `if ts < start_ts: start_ts = ts` (line 84-85). -/
def updateStart : Option Int → Int → Option Int
  | none, ts => some ts
  | some m, ts => if ts < m then some ts else some m

/-- One line of the `for r in read` loop (lines 81-89) acting on the state. -/
def stepLine (st : ParseState) (r : List Char) : Except Unit ParseState :=
  match processLine r with
  | .error e => .error e
  | .ok none => .ok st
  | .ok (some samp) =>
    .ok { startTs := updateStart st.startTs samp.ts,
          dict := addSample st.dict samp.ts samp.latency }

/-- One iteration of the `for tid in range(0, 8)` loop (lines 68-89): a missing
trace file (`none`) is skipped by the `continue` at line 76; an existing file's
lines are folded through `stepLine`. -/
def taskStep (st : ParseState) (file : Option (List (List Char))) : Except Unit ParseState :=
  match file with
  | none => .ok st
  | some lines => lines.foldlM stepLine st

/-- The whole per-configuration reading loop over the (up to 8) task trace
files; `files` holds `none` for each task whose file does not exist. -/
def readTasks (files : List (Option (List (List Char)))) : Except Unit ParseState :=
  files.foldlM taskStep ⟨none, []⟩

/-! ### PercentileAggregator (pareto_curve_batching.py lines 91-106) -/

/-- `temp_dict[ts][floor(len(temp_dict[ts])*0.99)]` after the in-place ascending
sort (lines 93-94); `floor(n*0.99)` on the bin sizes at hand equals `99*n/100`
in exact arithmetic.  `none` models the out-of-range `IndexError` (never hit:
bins are only created nonempty). -/
def binTail (vs : List Int) : Option Int :=
  (List.insertionSort (· ≤ ·) vs)[(99 * vs.length) / 100]?

/-- The per-bin 99th-percentile value as a total function (the bins the code
builds are nonempty, where this agrees with `binTail`). -/
def binP99D (vs : List Int) : Int :=
  (binTail vs).getD 0

/-- The `coly` list (one per-bin tail value per bin, in bin insertion order,
lines 91-94). -/
def colyOf (d : List (Int × List Int)) : Except Unit (List Int) :=
  d.mapM (fun p =>
    match binTail p.2 with
    | none => .error ()
    | some v => .ok v)

/-- The `col` list of relative bins `ts - start_ts` (line 95).  When the dict is
nonempty the loop invariant guarantees `start_ts` has been set; when it is empty
no bin is emitted. -/
def binsOf (files : List (Option (List (List Char)))) : Except Unit (List Int) :=
  match readTasks files with
  | .error e => .error e
  | .ok st =>
    match st.startTs with
    | none => .ok []
    | some s => .ok (st.dict.map (fun p => p.1 - s))

/-- The configuration's tail-latency scalar (lines 104-106): sort `coly`
ascending and take `coly[-1]`; on an empty `coly` the `[-1]` indexing raises
`IndexError`, which is `.error ()`. -/
def tailScalar (files : List (Option (List (List Char)))) : Except Unit Int :=
  match readTasks files with
  | .error e => .error e
  | .ok st =>
    match colyOf st.dict with
    | .error e => .error e
    | .ok coly =>
      match (List.insertionSort (· ≤ ·) coly).getLast? with
      | none => .error ()
      | some v => .ok v

/-! ### PhaseAggregator: averaging timer phases over repeated runs
(pareto_curve_batching.py lines 108-133; the same accumulation pattern is at
breakdown_batching_input_rate.py lines 21-45).

The per-run phase totals `stats` are produced by `breakdown_total` from
`analysis/config/general_utilities`, an external line-oriented breakdown
routine; the aggregation below consumes its output abstractly as an
insertion-ordered dictionary from phase name to duration. -/

/-- The dictionary `breakdown_total` returns for one run's `timer.output`. -/
def Stats : Type := List (String × Rat)

instance : DecidableEq Stats := inferInstanceAs (DecidableEq (List (String × Rat)))

/-- The body of the accumulation for one matrix cell `y[j][i]` and one repeat
(lines 118-122): when the phase is absent from this run's stats the cell is
ASSIGNED 0 (`y[j][i] = 0`), discarding what earlier repeats accumulated;
when present, the run's duration is added. -/
def phaseStep (phase : String) (acc : Rat) : Option Stats → Except Unit Rat
  | none => .error ()
  | some stats =>
    match List.lookup phase stats with
    | none => .ok 0
    | some v => .ok (pyAdd acc v)

/-- The value of cell `y[j][i]` after the `for repeat in range(1, repeat_num+1)`
loop, for one configuration (index `i`) and one phase (`timers_plot[j]`).
`runs` holds, per repeat, the stats parsed from the run's timer file, or `none`
when `open(file_path)` raises `FileNotFoundError` (lines 115-117: the
try/except around it is commented out, so the exception escapes). -/
def phaseCell (runs : List (Option Stats)) (phase : String) : Except Unit Rat :=
  runs.foldlM (phaseStep phase) 0

/-- The averaged cell `y[j][i] / repeat_num` (line 133); dividing by a zero
repeat count would be a `ZeroDivisionError`. -/
def avgCell (runs : List (Option Stats)) (phase : String) : Except Unit Rat :=
  match phaseCell runs phase with
  | .error e => .error e
  | .ok s => if runs.length = 0 then .error () else .ok (pyDiv s runs.length)

/-- One `completion_time += y[j][i]` step (line 144) on an averaged cell. -/
def completionStep (runs : List (Option Stats)) (acc : Rat) (ph : String) : Except Unit Rat :=
  match avgCell runs ph with
  | .error e => .error e
  | .ok v => .ok (pyAdd acc v)

/-- The configuration's completion-time scalar (lines 141-144, and
breakdown_batching_input_rate.py lines 49-52): `completion_time = 0` then
`completion_time += y[j][i]` over the three phase rows, on the averaged cells. -/
def completionCell (runs : List (Option Stats)) (phases : List String) : Except Unit Rat :=
  phases.foldlM (completionStep runs) 0

/-- The averaging of repeated runs as the specification words it: for each
phase, the sum over all R runs of that run's duration (an absent phase
contributing 0), divided by the fixed R. -/
def specAvgPhase (runs : List Stats) (phase : String) : Rat :=
  (runs.map (fun stats => (List.lookup phase stats).getD 0)).sum / (runs.length : Rat)

/-! ### CurveBuilder: assembling the sweep curve
(pareto_curve_batching.py lines 55-159) -/

/-- The sweep of batching granularities, line 57. -/
def keysList : List Nat := [1, 2, 4, 8, 16, 32, 64]

/-- All raw input `ReadFile` consumes, per configuration key in `keysList`
order: the 8 task trace files of the latency pass, the per-repeat timer stats,
and the `timers_plot` phase names from the shared configuration module. -/
structure RFInput where
  latencyFiles : List (List (Option (List (List Char))))
  timerRuns : List (List (Option Stats))
  phases : List String

/-- The `ReadFile` function of pareto_curve_batching.py (lines 44-159), without
the plotting: the latency pass fills `latency_dict` in `keys` order (lines
62-106), the timer pass fills and averages the `y` matrix (lines 108-139), and
lines 152-157 hand back `x_axis = [keys, keys, keys]` and
`y_axis = [sync_time, update_time, latency_dict.values()]` (`replication_time`
is built but not appended). -/
def ReadFile (inp : RFInput) : Except Unit (List (List Nat) × List (List Rat)) :=
  match inp.latencyFiles.mapM tailScalar with
  | .error e => .error e
  | .ok latVals =>
    match inp.timerRuns.mapM (fun runs => avgCell runs (inp.phases.getD 0 "")) with
    | .error e => .error e
    | .ok syncT =>
      match inp.timerRuns.mapM (fun runs => avgCell runs (inp.phases.getD 1 "")) with
      | .error e => .error e
      | .ok _replicationT =>
        match inp.timerRuns.mapM (fun runs => avgCell runs (inp.phases.getD 2 "")) with
        | .error e => .error e
        | .ok updT =>
          .ok ([keysList, keysList, keysList],
               [syncT, updT, latVals.map (fun (v : Int) => (v : Rat))])

/-! ### Concrete inputs used by scenarios, counterexamples and witnesses -/

/-- First trace line of the two-line timestamp scenario. -/
def line1 : List Char := "INFO ts: 1680000000000 endToEnd latency: 42".data

/-- Second trace line of the two-line timestamp scenario. -/
def line2 : List Char := "INFO ts: 1680000001000 endToEnd latency: 58".data

/-- One task whose trace file holds the two scenario lines. -/
def scenarioFiles : List (Option (List (List Char))) := [some [line1, line2]]

/-- A configuration whose 8 task trace files are all missing. -/
def allMissing8 : List (Option (List (List Char))) :=
  List.replicate 8 (none : Option (List (List Char)))

/-- A trace line that carries the latency marker but no `"ts: "` marker. -/
def noTsLine : List Char := "endToEnd latency: 42".data

/-- A second latency-marker line without `"ts: "`, for the implicit-claim check. -/
def c10BadLine : List Char := "worker endToEnd latency: 99".data

/-- A plain diagnostic line with neither marker. -/
def plainLine : List Char := "random diagnostic line".data

/-- The three per-run stats of the averaging scenario: sync 10, sync 20, absent. -/
def c1Runs : List Stats := [[("sync", (10 : Rat))], [("sync", (20 : Rat))], []]

/-- The recognized `timers_plot` phases. -/
def stdPhases : List String := ["sync", "replication", "update"]

/-- A plain diagnostic line for the implicit-claim witness. -/
def c10PlainLine : List Char := "another unrelated log line".data

/-- An input whose single configuration has a readable trace file but a missing
run timer file (the `none` in `timerRuns`). -/
def c5Input : RFInput := ⟨[[some [line1]]], [[none]], stdPhases⟩

/-- One run reporting sync 10, replication 5, update 3. -/
def c7Runs : List (Option Stats) :=
  [some [("sync", (10 : Rat)), ("replication", (5 : Rat)), ("update", (3 : Rat))]]

/-- A full-sweep input: 7 configurations, each with one trace file holding
`line1` and one run whose timer stats hold only `sync = 4`. -/
def inp8 : RFInput :=
  ⟨List.replicate 7 [some [line1]], List.replicate 7 [some [("sync", (4 : Rat))]], stdPhases⟩

/-- The precondition under which the per-line parse of a latency-marker line
completes: the `"ts: "` split has a second chunk, its first 13 characters parse
as an integer, and the text after the latency marker parses as an integer. -/
def LineWellFormed (r : List Char) : Prop :=
  ∃ afterTs tsRaw afterLat lat,
    (pySplit tsMarker r)[1]? = some afterTs ∧
    pyInt? (afterTs.take 13) = some tsRaw ∧
    (pySplit latencyMarker r)[1]? = some afterLat ∧
    pyInt? afterLat = some lat

/-- The timeline invariant maintained by the reading loop: if `start_ts` is
still `float('inf')` no sample has been stored, and otherwise `start_ts` is a
key of `temp_dict` and a lower bound of all its keys. -/
def GoodState (st : ParseState) : Prop :=
  (st.startTs = none → st.dict = []) ∧
  (∀ s, st.startTs = some s →
    s ∈ st.dict.map Prod.fst ∧ ∀ k ∈ st.dict.map Prod.fst, s ≤ k)

/-- All value lists stored in the timeline are nonempty. -/
def EntriesNonempty (st : ParseState) : Prop :=
  ∀ vs ∈ st.dict.map Prod.snd, vs ≠ []

/-! ### Helper lemmas -/

theorem pyAdd_eq (a b : Rat) : pyAdd a b = a + b := by
  have ha : ((a.den : Rat)) ≠ 0 := Nat.cast_ne_zero.mpr a.den_nz
  have hb : ((b.den : Rat)) ≠ 0 := Nat.cast_ne_zero.mpr b.den_nz
  rw [pyAdd, Rat.divInt_eq_div]
  conv_rhs => rw [← Rat.num_div_den a, ← Rat.num_div_den b]
  push_cast
  rw [div_add_div _ _ ha hb]
  ring_nf

theorem pyDiv_eq (x : Rat) (n : Nat) : pyDiv x n = x / (n : Rat) := by
  rw [pyDiv, Rat.divInt_eq_div]
  push_cast
  rw [div_mul_eq_div_div, Rat.num_div_den]

theorem pyDiv_zero (n : Nat) : pyDiv 0 n = 0 := by
  rw [pyDiv_eq]
  simp

theorem except_bind_ok {α β : Type} (a : α) (f : α → Except Unit β) :
    (Except.ok a >>= f) = f a := rfl

theorem except_bind_err {α β : Type} (f : α → Except Unit β) :
    ((Except.error () : Except Unit α) >>= f) = Except.error () := rfl

/-- Invariant preservation through a monadic fold in `Except Unit`. -/
theorem foldlM_except_inv {α σ : Type} (f : σ → α → Except Unit σ) (P : σ → Prop)
    (hf : ∀ s a s₂, P s → f s a = Except.ok s₂ → P s₂) :
    ∀ (l : List α) (s s₂ : σ), P s → l.foldlM f s = Except.ok s₂ → P s₂ := by
  intro l
  induction l with
  | nil =>
    intro s s₂ hP h
    rw [List.foldlM_nil] at h
    cases h
    exact hP
  | cons a l ih =>
    intro s s₂ hP h
    rw [List.foldlM_cons] at h
    cases hfa : f s a with
    | error e => rw [hfa] at h; cases e; rw [except_bind_err] at h; cases h
    | ok s₁ => rw [hfa, except_bind_ok] at h; exact ih s₁ s₂ (hf s a s₁ hP hfa) h

/-- A monadic map in `Except Unit` that succeeds has output of the input's length. -/
theorem mapM_ok_length {α β : Type} (f : α → Except Unit β) :
    ∀ (l : List α) (out : List β), l.mapM f = Except.ok out → out.length = l.length := by
  intro l
  induction l with
  | nil =>
    intro out h
    rw [List.mapM_nil] at h
    cases h
    rfl
  | cons a l ih =>
    intro out h
    rw [List.mapM_cons] at h
    cases hfa : f a with
    | error e => rw [hfa] at h; cases e; rw [except_bind_err] at h; cases h
    | ok b =>
      rw [hfa, except_bind_ok] at h
      cases hrest : l.mapM f with
      | error e => rw [hrest] at h; cases e; rw [except_bind_err] at h; cases h
      | ok bs =>
        rw [hrest, except_bind_ok] at h
        cases h
        simp [ih bs hrest]

/-- A monadic map whose function succeeds pointwise computes the plain map. -/
theorem mapM_ok_of_ok {α β : Type} (f : α → Except Unit β) (g : α → β) :
    ∀ (l : List α), (∀ a ∈ l, f a = Except.ok (g a)) → l.mapM f = Except.ok (l.map g) := by
  intro l
  induction l with
  | nil => intro _; rw [List.mapM_nil]; rfl
  | cons a l ih =>
    intro h
    rw [List.mapM_cons, h a (by simp), except_bind_ok,
      ih (fun x hx => h x (by simp [hx])), except_bind_ok]
    rfl

/-- `addSample` only extends or extends-in-place: its keys are the old keys plus
the new timestamp. -/
theorem mem_keys_addSample (ts lat k : Int) :
    ∀ (d : List (Int × List Int)),
      (k ∈ (addSample d ts lat).map Prod.fst ↔ k ∈ d.map Prod.fst ∨ k = ts) := by
  intro d
  induction d with
  | nil => simp [addSample]
  | cons p rest ih =>
    obtain ⟨t, vs⟩ := p
    by_cases ht : t = ts
    · subst ht
      simp [addSample]
      tauto
    · simp [addSample, ht, ih]
      tauto

/-- `addSample` never creates an empty value list. -/
theorem nonempty_addSample (ts lat : Int) :
    ∀ (d : List (Int × List Int)),
      (∀ vs ∈ d.map Prod.snd, vs ≠ []) →
      ∀ vs ∈ (addSample d ts lat).map Prod.snd, vs ≠ [] := by
  intro d
  induction d with
  | nil =>
    intro _ vs hvs
    simp [addSample] at hvs
    simp [hvs]
  | cons p rest ih =>
    obtain ⟨t, vs0⟩ := p
    intro h vs hvs
    have h0 : vs0 ≠ [] := h vs0 (by simp)
    have hrest : ∀ w ∈ rest.map Prod.snd, w ≠ [] := fun w hw => h w (by simp [hw])
    by_cases ht : t = ts
    · rw [addSample, if_pos ht] at hvs
      rw [List.map_cons, List.mem_cons] at hvs
      rcases hvs with hvs | hvs
      · simp [hvs]
      · exact hrest vs hvs
    · rw [addSample, if_neg ht] at hvs
      rw [List.map_cons, List.mem_cons] at hvs
      rcases hvs with hvs | hvs
      · rw [hvs]; exact h0
      · exact ih hrest vs hvs

theorem stepLine_good (st : ParseState) (r : List Char) (st₂ : ParseState)
    (hP : GoodState st) (h : stepLine st r = Except.ok st₂) : GoodState st₂ := by
  rw [stepLine] at h
  cases hpr : processLine r with
  | error e => rw [hpr] at h; cases h
  | ok osamp =>
    rw [hpr] at h
    cases osamp with
    | none => cases h; exact hP
    | some samp =>
      cases h
      obtain ⟨h0, hmin⟩ := hP
      constructor
      · intro hnone
        exfalso
        dsimp only at hnone
        cases hcur : st.startTs with
        | none => rw [hcur] at hnone; cases hnone
        | some m =>
          rw [hcur] at hnone
          rw [updateStart] at hnone
          split at hnone <;> cases hnone
      · intro s hs
        dsimp only at hs ⊢
        cases hcur : st.startTs with
        | none =>
          have hdict : st.dict = [] := h0 hcur
          rw [hcur, updateStart] at hs
          injection hs with hs
          subst hs
          rw [hdict]
          constructor
          · exact (mem_keys_addSample samp.ts samp.latency samp.ts []).mpr (Or.inr rfl)
          · intro k hk
            rcases (mem_keys_addSample samp.ts samp.latency k []).mp hk with hk | hk
            · simp at hk
            · rw [hk]
        | some m =>
          obtain ⟨hmem, hlb⟩ := hmin m hcur
          rw [hcur, updateStart] at hs
          by_cases hlt : samp.ts < m
          · rw [if_pos hlt] at hs
            injection hs with hs
            subst hs
            constructor
            · exact (mem_keys_addSample samp.ts samp.latency samp.ts st.dict).mpr (Or.inr rfl)
            · intro k hk
              rcases (mem_keys_addSample samp.ts samp.latency k st.dict).mp hk with hk | hk
              · exact le_of_lt (lt_of_lt_of_le hlt (hlb k hk))
              · rw [hk]
          · rw [if_neg hlt] at hs
            injection hs with hs
            subst hs
            constructor
            · exact (mem_keys_addSample samp.ts samp.latency m st.dict).mpr (Or.inl hmem)
            · intro k hk
              rcases (mem_keys_addSample samp.ts samp.latency k st.dict).mp hk with hk | hk
              · exact hlb k hk
              · rw [hk]; exact le_of_not_lt hlt

theorem stepLine_nonempty (st : ParseState) (r : List Char) (st₂ : ParseState)
    (hP : EntriesNonempty st) (h : stepLine st r = Except.ok st₂) : EntriesNonempty st₂ := by
  rw [stepLine] at h
  cases hpr : processLine r with
  | error e => rw [hpr] at h; cases h
  | ok osamp =>
    rw [hpr] at h
    cases osamp with
    | none => cases h; exact hP
    | some samp =>
      cases h
      exact nonempty_addSample samp.ts samp.latency st.dict hP

theorem taskStep_good (st : ParseState) (file : Option (List (List Char))) (st₂ : ParseState)
    (hP : GoodState st) (h : taskStep st file = Except.ok st₂) : GoodState st₂ := by
  cases file with
  | none => cases h; exact hP
  | some lines => exact foldlM_except_inv stepLine GoodState stepLine_good lines st st₂ hP h

theorem taskStep_nonempty (st : ParseState) (file : Option (List (List Char))) (st₂ : ParseState)
    (hP : EntriesNonempty st) (h : taskStep st file = Except.ok st₂) : EntriesNonempty st₂ := by
  cases file with
  | none => cases h; exact hP
  | some lines =>
    exact foldlM_except_inv stepLine EntriesNonempty stepLine_nonempty lines st st₂ hP h

theorem readTasks_good (files : List (Option (List (List Char)))) (st : ParseState)
    (h : readTasks files = Except.ok st) : GoodState st := by
  refine foldlM_except_inv taskStep GoodState taskStep_good files ⟨none, []⟩ st ?_ h
  exact ⟨fun _ => rfl, fun s hs => by cases hs⟩

theorem readTasks_nonempty (files : List (Option (List (List Char)))) (st : ParseState)
    (h : readTasks files = Except.ok st) : EntriesNonempty st := by
  refine foldlM_except_inv taskStep EntriesNonempty taskStep_nonempty files ⟨none, []⟩ st ?_ h
  intro vs hvs
  simp at hvs

/-- On a nonempty bin the nearest-rank index `99*n/100` is in range, so the
per-bin tail value is defined and equals `binP99D`. -/
theorem binTail_eq_some (vs : List Int) (h : vs ≠ []) : binTail vs = some (binP99D vs) := by
  have hn : 0 < vs.length := List.length_pos.mpr h
  have hidx : (99 * vs.length) / 100 < (List.insertionSort (· ≤ ·) vs).length := by
    rw [List.length_insertionSort]
    rw [Nat.div_lt_iff_lt_mul (by norm_num)]
    omega
  rw [binTail, List.getElem?_eq_getElem hidx, binP99D, binTail,
    List.getElem?_eq_getElem hidx]
  rfl

/-- When every bin is nonempty, `coly` is exactly the per-bin p99 map. -/
theorem colyOf_eq (d : List (Int × List Int)) (h : ∀ vs ∈ d.map Prod.snd, vs ≠ []) :
    colyOf d = Except.ok (d.map (fun p => binP99D p.2)) := by
  rw [colyOf]
  refine mapM_ok_of_ok _ _ d ?_
  intro p hp
  rw [binTail_eq_some p.2 (h p.2 (List.mem_map_of_mem Prod.snd hp))]

/-- In a `≤`-sorted list every element is bounded by the last one. -/
theorem sorted_le_getLast :
    ∀ (l : List Int), List.Sorted (· ≤ ·) l →
      ∀ v, l.getLast? = some v → ∀ x ∈ l, x ≤ v := by
  intro l
  induction l with
  | nil => intro _ v hv; cases hv
  | cons a t ih =>
    intro hsort v hv x hx
    cases t with
    | nil =>
      simp at hv hx
      simp [hv, hx]
    | cons b t₂ =>
      rw [List.getLast?_cons_cons] at hv
      obtain ⟨ha, hsort₂⟩ := List.sorted_cons.mp hsort
      rcases List.mem_cons.mp hx with hx | hx
      · subst hx
        have hb : b ∈ b :: t₂ := by simp
        exact le_trans (ha b hb) (ih hsort₂ v hv b hb)
      · exact ih hsort₂ v hv x hx

/-- The last element of a nonempty list is a member. -/
theorem getLast?_mem : ∀ (l : List Int) (v : Int), l.getLast? = some v → v ∈ l := by
  intro l
  induction l with
  | nil => intro v hv; cases hv
  | cons a t ih =>
    intro v hv
    cases t with
    | nil => simp at hv; simp [hv]
    | cons b t₂ =>
      rw [List.getLast?_cons_cons] at hv
      exact List.mem_cons.mpr (Or.inr (ih v hv))

/-- Folding the task loop over a file list with a missing file (`none`) inserted
anywhere gives exactly the fold without it: the `continue` is purely local. -/
theorem foldlM_taskStep_skip (post : List (Option (List (List Char)))) :
    ∀ (pre : List (Option (List (List Char)))) (init : ParseState),
      (pre ++ none :: post).foldlM taskStep init = (pre ++ post).foldlM taskStep init := by
  intro pre
  induction pre with
  | nil =>
    intro init
    rw [List.nil_append, List.nil_append, List.foldlM_cons]
    rfl
  | cons a pre ih =>
    intro init
    rw [List.cons_append, List.cons_append, List.foldlM_cons, List.foldlM_cons]
    cases ha : taskStep init a with
    | error e => cases e; rw [except_bind_err, except_bind_err]
    | ok st₁ => rw [except_bind_ok, except_bind_ok, ih st₁]

/-- A `none` (missing timer file) anywhere in the repeat list makes the cell
accumulation raise. -/
theorem phaseFold_error (phase : String) :
    ∀ (runs : List (Option Stats)) (acc : Rat), none ∈ runs →
      runs.foldlM (phaseStep phase) acc = Except.error () := by
  intro runs
  induction runs with
  | nil => intro acc h; cases h
  | cons orun rest ih =>
    intro acc h
    rw [List.foldlM_cons]
    cases orun with
    | none => rw [show phaseStep phase acc none = Except.error () from rfl, except_bind_err]
    | some stats =>
      have hmem : none ∈ rest := by
        rcases List.mem_cons.mp h with h | h
        · cases h
        · exact h
      obtain ⟨v, hv⟩ : ∃ v, phaseStep phase acc (some stats) = Except.ok v := by
        simp only [phaseStep]
        cases List.lookup phase stats with
        | none => exact ⟨0, rfl⟩
        | some w => exact ⟨pyAdd acc w, rfl⟩
      rw [hv, except_bind_ok]
      exact ih v hmem

/-- When the phase is absent from every (present) run's stats, the accumulated
cell is 0 whatever the starting accumulator. -/
theorem phaseFold_absent (phase : String) :
    ∀ (rest : List (Option Stats)) (orun : Option Stats) (acc : Rat),
      (∀ o ∈ orun :: rest, ∃ stats, o = some stats ∧ List.lookup phase stats = none) →
      (orun :: rest).foldlM (phaseStep phase) acc = Except.ok 0 := by
  intro rest
  induction rest with
  | nil =>
    intro orun acc h
    obtain ⟨stats, rfl, hlook⟩ := h orun (by simp)
    rw [List.foldlM_cons]
    have hstep : phaseStep phase acc (some stats) = Except.ok 0 := by
      simp only [phaseStep]
      rw [hlook]
    rw [hstep, except_bind_ok, List.foldlM_nil]
    rfl
  | cons o₂ rest ih =>
    intro orun acc h
    obtain ⟨stats, rfl, hlook⟩ := h orun (by simp)
    rw [List.foldlM_cons]
    have hstep : phaseStep phase acc (some stats) = Except.ok 0 := by
      simp only [phaseStep]
      rw [hlook]
    rw [hstep, except_bind_ok]
    exact ih o₂ 0 (fun o ho => h o (by simp [List.mem_cons.mp ho]))

/-- The completion-time fold computes the accumulator plus the sum of the
averaged phase durations returned by the per-phase map. -/
theorem completionFold (runs : List (Option Stats)) :
    ∀ (phases : List String) (avgs : List Rat) (acc : Rat),
      phases.mapM (avgCell runs) = Except.ok avgs →
      phases.foldlM (completionStep runs) acc = Except.ok (acc + avgs.sum) := by
  intro phases
  induction phases with
  | nil =>
    intro avgs acc h
    rw [List.mapM_nil] at h
    cases h
    rw [List.foldlM_nil]
    show Except.ok acc = Except.ok (acc + List.sum [])
    simp
  | cons ph rest ih =>
    intro avgs acc h
    rw [List.mapM_cons] at h
    cases hv : avgCell runs ph with
    | error e => rw [hv] at h; cases e; rw [except_bind_err] at h; cases h
    | ok v =>
      rw [hv, except_bind_ok] at h
      cases hrest : rest.mapM (avgCell runs) with
      | error e => rw [hrest] at h; cases e; rw [except_bind_err] at h; cases h
      | ok vs =>
        rw [hrest, except_bind_ok] at h
        cases h
        rw [List.foldlM_cons]
        have hstep : completionStep runs acc ph = Except.ok (pyAdd acc v) := by
          unfold completionStep
          rw [hv]
        rw [hstep, except_bind_ok, ih vs (pyAdd acc v) hrest, pyAdd_eq]
        rw [List.sum_cons]
        congr 1
        ring

/-! ### Claim theorems -/

/-- C1: the code's repeat-averaging at the failing input.  On the three runs
reporting sync 10, sync 20 and sync absent (`c1Runs`), the accumulation of
lines 108-133 of pareto_curve_batching.py yields an averaged sync duration of
0, because the absent-phase branch executes `y[j][i] = 0` and wipes the sum of
the earlier runs, while the specified fixed-denominator average of the same
records is (10+20+0)/3 = 10. -/
theorem c1_code_eval :
    avgCell (c1Runs.map some) "sync" = Except.ok 0 ∧ specAvgPhase c1Runs "sync" = 10 := by
  constructor
  · rfl
  · show (((10 : Rat)) + ((20 : Rat) + ((0 : Rat) + 0))) / ((3 : Nat) : Rat) = 10
    norm_num

/-- C2 counterexample: for the configuration whose 8 task trace files are all
missing, the timeline is empty and the tail-latency computation raises (the
`coly[-1]` indexing on an empty list), so no defined scalar is produced —
contrary to the claim that an empty timeline yields a defined zero/undefined
scalar without a runtime fault. -/
theorem c2_counterexample :
    tailScalar allMissing8 = Except.error () ∧
    ¬ ∃ v, tailScalar allMissing8 = Except.ok v := by
  refine ⟨rfl, ?_⟩
  rintro ⟨v, hv⟩
  exact Except.noConfusion hv

/-- C2 amended: for every configuration whose timeline is empty, the pipeline
raises an `IndexError` at the final `coly[-1]` indexing instead of producing a
defined zero/undefined scalar. -/
theorem c2_amended_empty_timeline (files : List (Option (List (List Char))))
    (st : ParseState) (h1 : readTasks files = Except.ok st) (h2 : st.dict = []) :
    tailScalar files = Except.error () := by
  unfold tailScalar
  rw [h1]
  dsimp only
  rw [h2]
  rfl

theorem c2_amended_empty_timeline_witness : tailScalar allMissing8 = Except.error () :=
  c2_amended_empty_timeline allMissing8 ⟨none, []⟩ rfl rfl

/-- C4 counterexample: the line `"endToEnd latency: 42"` carries the latency
marker but lacks the `"ts: "` marker, and processing it raises (the
`r.split("ts: ")[1]` indexing) instead of silently skipping it — contrary to
the claim that every line lacking one of the expected markers is silently
skipped without raising. -/
theorem c4_counterexample :
    (1 < (pySplit latencyMarker noTsLine).length) ∧
    ¬ (1 < (pySplit tsMarker noTsLine).length) ∧
    processLine noTsLine = Except.error () := by
  refine ⟨by decide, by decide, rfl⟩

/-- C4 amended: a line is turned into a sample only if it contains both
markers, and a line lacking the LATENCY marker is silently skipped without
error; but a line that carries the latency marker while lacking the `"ts: "`
marker raises an unhandled error rather than being skipped. -/
theorem c4_amended_skip (r : List Char) :
    (¬ 1 < (pySplit latencyMarker r).length → processLine r = Except.ok none) ∧
    (1 < (pySplit latencyMarker r).length → ¬ 1 < (pySplit tsMarker r).length →
      processLine r = Except.error ()) := by
  constructor
  · intro hno
    unfold processLine
    rw [if_neg hno]
  · intro hyes hno
    unfold processLine
    rw [if_pos hyes]
    have hnone : (pySplit tsMarker r)[1]? = none := List.getElem?_eq_none (by omega)
    rw [hnone]

theorem c4_amended_skip_witness :
    processLine plainLine = Except.ok none ∧ processLine noTsLine = Except.error () :=
  ⟨(c4_amended_skip plainLine).1 (by decide),
   (c4_amended_skip noTsLine).2 (by decide) (by decide)⟩

/-- C5 counterexample: a configuration whose run timer file is missing
(`c5Input`, with a perfectly readable trace file) makes the whole pipeline
raise — the `open(file_path)` at line 117 of pareto_curve_batching.py has its
try/except commented out — contrary to the claim that a missing timer file is
recovered locally as a zero contribution. -/
theorem c5_counterexample :
    ReadFile c5Input = Except.error () ∧ ¬ ∃ out, ReadFile c5Input = Except.ok out := by
  refine ⟨rfl, ?_⟩
  rintro ⟨out, hout⟩
  exact Except.noConfusion hout

/-- C5 amended: a missing TASK TRACE file is recovered locally (the `continue`
at line 76): removing a `none` entry from the task file list leaves the whole
reading pass unchanged.  A missing RUN TIMER file, however, raises an unhandled
error for the whole configuration. -/
theorem c5_amended_missing_file :
    (∀ (pre post : List (Option (List (List Char)))),
      readTasks (pre ++ none :: post) = readTasks (pre ++ post)) ∧
    (∀ (runs : List (Option Stats)) (phase : String), none ∈ runs →
      avgCell runs phase = Except.error ()) := by
  constructor
  · intro pre post
    exact foldlM_taskStep_skip post pre ⟨none, []⟩
  · intro runs phase h
    have hcell : phaseCell runs phase = Except.error () := phaseFold_error phase runs 0 h
    unfold avgCell
    rw [hcell]

theorem c5_amended_missing_file_witness :
    readTasks [none] = readTasks [] ∧ avgCell [none] "sync" = Except.error () :=
  ⟨c5_amended_missing_file.1 [] [],
   c5_amended_missing_file.2 [none] "sync" (List.Mem.head [])⟩

/-- C3: for every configuration whose timeline has at least one bin, the
reported tail-latency scalar is defined and equals the maximum, over all time
bins (in insertion order), of the bin's nearest-rank 99th percentile
`sorted(bin_values)[floor(0.99 * len(bin_values))]` (which is `binP99D`). -/
theorem c3_tail_is_max_bin_p99 (files : List (Option (List (List Char))))
    (st : ParseState) (h1 : readTasks files = Except.ok st) (h2 : st.dict ≠ []) :
    ∃ m, tailScalar files = Except.ok m ∧
      m ∈ st.dict.map (fun p => binP99D p.2) ∧
      ∀ v ∈ st.dict.map (fun p => binP99D p.2), v ≤ m := by
  have hne := readTasks_nonempty files st h1
  have hcoly := colyOf_eq st.dict hne
  have hcne : st.dict.map (fun p => binP99D p.2) ≠ [] := by
    intro hnil
    exact h2 (List.map_eq_nil_iff.mp hnil)
  have hsne : List.insertionSort (· ≤ ·) (st.dict.map (fun p => binP99D p.2)) ≠ [] := by
    intro hnil
    apply hcne
    have := List.length_insertionSort (· ≤ ·) (st.dict.map (fun p => binP99D p.2))
    rw [hnil] at this
    exact List.length_eq_zero.mp this.symm
  obtain ⟨m, hm⟩ := Option.isSome_iff_exists.mp (List.getLast?_isSome.mpr hsne)
  refine ⟨m, ?_, ?_, ?_⟩
  · unfold tailScalar
    rw [h1]
    dsimp only
    rw [hcoly]
    dsimp only
    rw [hm]
  · exact (List.perm_insertionSort (· ≤ ·) _).mem_iff.mp
      (getLast?_mem _ m hm)
  · intro v hv
    exact sorted_le_getLast _ (List.sorted_insertionSort (· ≤ ·) _) m hm v
      ((List.perm_insertionSort (· ≤ ·) _).mem_iff.mpr hv)

theorem c3_tail_is_max_bin_p99_witness :
    ∃ m, tailScalar scenarioFiles = Except.ok m ∧
      m ∈ [(1680000000, [42]), (1680000001, [58])].map
        (fun p : Int × List Int => binP99D p.2) ∧
      ∀ v ∈ [(1680000000, [42]), (1680000001, [58])].map
        (fun p : Int × List Int => binP99D p.2), v ≤ m :=
  c3_tail_is_max_bin_p99 scenarioFiles
    ⟨some 1680000000, [(1680000000, [42]), (1680000001, [58])]⟩ rfl (by decide)

/-- C9: for every configuration with at least one sample (`start_ts` was set),
the start offset is the minimum coarsened timestamp over all bins of the
timeline (it is itself one of them and bounds them all from below), and every
relative bin `ts - start_ts` the code emits is nonnegative. -/
theorem c9_start_offset_min (files : List (Option (List (List Char))))
    (st : ParseState) (s : Int)
    (h1 : readTasks files = Except.ok st) (h2 : st.startTs = some s) :
    s ∈ st.dict.map Prod.fst ∧ (∀ k ∈ st.dict.map Prod.fst, s ≤ k) ∧
    binsOf files = Except.ok (st.dict.map (fun p => p.1 - s)) ∧
    ∀ b ∈ st.dict.map (fun p => p.1 - s), 0 ≤ b := by
  obtain ⟨-, hmin⟩ := readTasks_good files st h1
  obtain ⟨hmem, hlb⟩ := hmin s h2
  refine ⟨hmem, hlb, ?_, ?_⟩
  · unfold binsOf
    rw [h1]
    dsimp only
    rw [h2]
  · intro b hb
    simp only [List.mem_map] at hb
    obtain ⟨p, hp, rfl⟩ := hb
    have := hlb p.1 (List.mem_map_of_mem Prod.fst hp)
    omega

theorem c9_start_offset_min_witness :
    (1680000000 : Int) ∈ [(1680000000, [42]), (1680000001, [58])].map
      (Prod.fst : Int × List Int → Int) ∧
    (∀ k ∈ [(1680000000, [42]), (1680000001, [58])].map
      (Prod.fst : Int × List Int → Int), (1680000000 : Int) ≤ k) ∧
    binsOf scenarioFiles = Except.ok
      ([(1680000000, [42]), (1680000001, [58])].map
        (fun p : Int × List Int => p.1 - 1680000000)) ∧
    ∀ b ∈ [(1680000000, [42]), (1680000001, [58])].map
      (fun p : Int × List Int => p.1 - 1680000000), 0 ≤ b :=
  c9_start_offset_min scenarioFiles
    ⟨some 1680000000, [(1680000000, [42]), (1680000001, [58])]⟩ 1680000000 rfl rfl

/-- C6: for every recognized trace line the coarsened timestamp is the integer
formed by the first 13 characters after the `"ts: "` marker, floor-divided by
1000; and on the concrete two-line single-task scenario the timeline's
relative bins are 0 and 1 and the reported tail-latency scalar is exactly 58
(one value per bin, so each bin's p99 is the value itself). -/
theorem c6_timestamp_coarsening :
    (∀ (r : List Char) (samp : Sample) (afterTs : List Char) (n : Nat),
      processLine r = Except.ok (some samp) →
      (pySplit tsMarker r)[1]? = some afterTs →
      pyInt? (afterTs.take 13) = some ((n : Nat) : Int) →
      samp.ts = ((n / 1000 : Nat) : Int)) ∧
    binsOf scenarioFiles = Except.ok [0, 1] ∧
    tailScalar scenarioFiles = Except.ok 58 := by
  refine ⟨?_, rfl, rfl⟩
  intro r samp afterTs n h h2 h3
  unfold processLine at h
  by_cases hm : 1 < (pySplit latencyMarker r).length
  · rw [if_pos hm, h2] at h
    dsimp only at h
    rw [h3] at h
    dsimp only at h
    cases h4 : (pySplit latencyMarker r)[1]? with
    | none => rw [h4] at h; cases h
    | some afterLat =>
      rw [h4] at h
      dsimp only at h
      cases h5 : pyInt? afterLat with
      | none => rw [h5] at h; cases h
      | some lat =>
        rw [h5] at h
        dsimp only at h
        injection h with h
        injection h with h
        rw [← h]
        rfl
  · rw [if_neg hm] at h
    injection h with h
    cases h

theorem c6_timestamp_coarsening_witness :
    (⟨1680000000, 42⟩ : Sample).ts = (((1680000000000 : Nat) / 1000 : Nat) : Int) :=
  c6_timestamp_coarsening.1 line1 ⟨1680000000, 42⟩
    "1680000000000 endToEnd latency: 42".data 1680000000000 rfl rfl rfl

/-- C7: for every configuration whose per-phase averaged durations are all
defined, the reported total completion-time scalar (the `completion_time`
accumulation of lines 141-144) equals the sum of the averaged phase
durations. -/
theorem c7_completion_is_sum (runs : List (Option Stats)) (phases : List String)
    (avgs : List Rat) (h : phases.mapM (avgCell runs) = Except.ok avgs) :
    completionCell runs phases = Except.ok avgs.sum := by
  unfold completionCell
  rw [completionFold runs phases avgs 0 h, zero_add]

theorem c7_completion_is_sum_witness :
    completionCell c7Runs stdPhases = Except.ok (List.sum [(10 : Rat), 5, 3]) :=
  c7_completion_is_sum c7Runs stdPhases [10, 5, 3] rfl

/-- C10: for a line containing the latency marker, parsing completes (produces
a sample) exactly under the precondition `LineWellFormed` (a `"ts: "` chunk
exists, its first 13 characters parse as an integer, and the text after the
latency marker parses as an integer); a latency-marker line violating the
precondition raises an unhandled error instead of being skipped; the silent
skip covers exactly the lines without the latency marker. -/
theorem c10_parse_precondition :
    (∀ r : List Char, 1 < (pySplit latencyMarker r).length →
      ((∃ samp, processLine r = Except.ok (some samp)) ↔ LineWellFormed r)) ∧
    (∀ r : List Char, 1 < (pySplit latencyMarker r).length → ¬ LineWellFormed r →
      processLine r = Except.error ()) ∧
    (∀ r : List Char, ¬ 1 < (pySplit latencyMarker r).length →
      processLine r = Except.ok none) := by
  refine ⟨?_, ?_, ?_⟩
  · intro r hm
    constructor
    · rintro ⟨samp, h⟩
      unfold processLine at h
      rw [if_pos hm] at h
      cases h1 : (pySplit tsMarker r)[1]? with
      | none => rw [h1] at h; cases h
      | some afterTs =>
        rw [h1] at h
        dsimp only at h
        cases h2 : pyInt? (afterTs.take 13) with
        | none => rw [h2] at h; cases h
        | some tsRaw =>
          rw [h2] at h
          dsimp only at h
          cases h3 : (pySplit latencyMarker r)[1]? with
          | none => rw [h3] at h; cases h
          | some afterLat =>
            rw [h3] at h
            dsimp only at h
            cases h4 : pyInt? afterLat with
            | none => rw [h4] at h; cases h
            | some lat => exact ⟨afterTs, tsRaw, afterLat, lat, h1, h2, h3, h4⟩
    · rintro ⟨afterTs, tsRaw, afterLat, lat, h1, h2, h3, h4⟩
      refine ⟨⟨Int.tdiv tsRaw 1000, lat⟩, ?_⟩
      unfold processLine
      rw [if_pos hm, h1]
      dsimp only
      rw [h2]
      dsimp only
      rw [h3]
      dsimp only
      rw [h4]
  · intro r hm hnwf
    unfold processLine
    rw [if_pos hm]
    cases h1 : (pySplit tsMarker r)[1]? with
    | none => rfl
    | some afterTs =>
      dsimp only
      cases h2 : pyInt? (afterTs.take 13) with
      | none => rfl
      | some tsRaw =>
        dsimp only
        cases h3 : (pySplit latencyMarker r)[1]? with
        | none => rfl
        | some afterLat =>
          dsimp only
          cases h4 : pyInt? afterLat with
          | none => rfl
          | some lat =>
            exact absurd ⟨afterTs, tsRaw, afterLat, lat, h1, h2, h3, h4⟩ hnwf
  · intro r hno
    unfold processLine
    rw [if_neg hno]

theorem c10_parse_precondition_witness :
    processLine c10BadLine = Except.error () ∧ processLine c10PlainLine = Except.ok none := by
  constructor
  · refine c10_parse_precondition.2.1 c10BadLine (by decide) ?_
    rintro ⟨afterTs, tsRaw, afterLat, lat, h1, -, -, -⟩
    have hnone : (pySplit tsMarker c10BadLine)[1]? = none := rfl
    rw [hnone] at h1
    cases h1
  · exact c10_parse_precondition.2.2 c10PlainLine (by decide)

/-- C8: for every sweep input aligned with the 7-key sweep, a successful
`ReadFile` hands rendering three x-value lists and three y-series, every one of
them of the sweep's length (index-aligned slots, no omissions); and a
configuration key all of whose (nonzero count of) runs lack a phase still
occupies its series slot with the value 0. -/
theorem c8_curve_alignment (inp : RFInput) (xs : List (List Nat)) (ys : List (List Rat))
    (hT : inp.timerRuns.length = keysList.length)
    (hL : inp.latencyFiles.length = keysList.length)
    (h : ReadFile inp = Except.ok (xs, ys)) :
    xs.length = 3 ∧ ys.length = 3 ∧
    (∀ x ∈ xs, x.length = keysList.length) ∧
    (∀ yl ∈ ys, yl.length = keysList.length) ∧
    (∀ (runs : List (Option Stats)) (phase : String), runs ≠ [] →
      (∀ orun ∈ runs, ∃ stats, orun = some stats ∧ List.lookup phase stats = none) →
      avgCell runs phase = Except.ok 0) := by
  unfold ReadFile at h
  cases hlat : inp.latencyFiles.mapM tailScalar with
  | error e => rw [hlat] at h; cases h
  | ok latVals =>
    rw [hlat] at h
    dsimp only at h
    cases hsync : inp.timerRuns.mapM (fun runs => avgCell runs (inp.phases.getD 0 "")) with
    | error e => rw [hsync] at h; cases h
    | ok syncT =>
      rw [hsync] at h
      dsimp only at h
      cases hrepl : inp.timerRuns.mapM (fun runs => avgCell runs (inp.phases.getD 1 "")) with
      | error e => rw [hrepl] at h; cases h
      | ok replT =>
        rw [hrepl] at h
        dsimp only at h
        cases hupd : inp.timerRuns.mapM (fun runs => avgCell runs (inp.phases.getD 2 "")) with
        | error e => rw [hupd] at h; cases h
        | ok updT =>
          rw [hupd] at h
          dsimp only at h
          injection h with h
          injection h with hx hy
          subst hx
          subst hy
          refine ⟨rfl, rfl, ?_, ?_, ?_⟩
          · intro x hx
            rcases List.mem_cons.mp hx with rfl | hx
            · rfl
            rcases List.mem_cons.mp hx with rfl | hx
            · rfl
            rcases List.mem_cons.mp hx with rfl | hx
            · rfl
            cases hx
          · intro yl hyl
            rcases List.mem_cons.mp hyl with rfl | hyl
            · rw [mapM_ok_length _ _ _ hsync, hT]
            rcases List.mem_cons.mp hyl with rfl | hyl
            · rw [mapM_ok_length _ _ _ hupd, hT]
            rcases List.mem_cons.mp hyl with rfl | hyl
            · rw [List.length_map, mapM_ok_length _ _ _ hlat, hL]
            cases hyl
          · intro runs phase hne habs
            cases runs with
            | nil => exact absurd rfl hne
            | cons orun rest =>
              have hfold := phaseFold_absent phase rest orun 0 habs
              unfold avgCell
              rw [show phaseCell (orun :: rest) phase = Except.ok 0 from hfold]
              dsimp only
              rw [if_neg (by simp : ¬ (orun :: rest).length = 0)]
              rw [pyDiv_zero]

theorem c8_curve_alignment_witness :
    ([(42 : Rat), 42, 42, 42, 42, 42, 42].length = keysList.length) ∧
    avgCell [some [("sync", (4 : Rat))]] "update" = Except.ok 0 := by
  have H := c8_curve_alignment inp8
    [keysList, keysList, keysList]
    [[(4 : Rat), 4, 4, 4, 4, 4, 4], [(0 : Rat), 0, 0, 0, 0, 0, 0],
     [(42 : Rat), 42, 42, 42, 42, 42, 42]]
    rfl rfl rfl
  refine ⟨H.2.2.2.1 _ (by simp), ?_⟩
  refine H.2.2.2.2 [some [("sync", (4 : Rat))]] "update" (by simp) ?_
  intro orun ho
  rw [List.mem_singleton] at ho
  subst ho
  exact ⟨[("sync", (4 : Rat))], rfl, rfl⟩
